import Mathlib

/-!
Shallow embedding of the single-waypoint motion planner
(package `motionplan`: `motionPlanInternal`, `planner.checkInputs`,
`planner.checkPath`, `planner.smoothPath`, `planner.getSolutions`).

Conventions of the embedding:
* a `frame.Input` is a rational number, a configuration (`[]frame.Input`)
  is a list of rationals;
* poses are an arbitrary type `P` (the planner never inspects a pose, it
  only threads poses between the consumed capabilities);
* the consumed capabilities (forward transform, constraint evaluation,
  IK solving, frame-system operations) are fields of records, mirroring
  the Go interfaces they are called through;
* the IK solver's asynchronous candidate stream is modelled by the finite
  list of configurations it emits, processed in emission order;
* context cancellation is modelled by a boolean schedule `ctxDone`
  telling, for each iteration of a polling loop, whether the context is
  done at that iteration;
* the random source injected into the planner is modelled by a stream
  `rng : Nat → Nat` of draws; the `n`-th call of `Intn bound` yields
  `rng n % bound`;
* Go `map` values keyed by `float64`/`string` are modelled as association
  lists with update-in-place-or-append semantics (`assocUpdate`,
  `bumpFailure`), which matches Go map assignment; map indexing is
  modelled by `assocLookup`.
-/

namespace Motionplan

/-- A configuration: `[]frame.Input` (one rational per joint). -/
abbrev Config : Type := List ℚ

/-- The part of a `referenceframe.Frame` the planner consumes: the forward
transform from a configuration to a pose (a `nil, err` return is modelled
by `none`). -/
structure FrameM (P : Type) where
  transform : Config → Option P

/-- `ConstraintInput`: the transient bundle passed into constraint
evaluation.  The pose fields are optional because the Go struct holds
nilable pointers and `checkPath` leaves them unset. -/
structure ConstraintInput (P : Type) where
  startPos : Option P
  endPos : Option P
  startInput : Config
  endInput : Config
  frame : FrameM P

/-- The fields of `plannerOptions` the embedded operations read, with the
constraint capability (`CheckConstraints` / `CheckConstraintPath`) carried
as functions, per the spec's ConstraintEvaluator boundary contract. -/
structure PlannerOptions (P : Type) where
  maxSolutions : Nat
  minScore : ℚ
  smoothIter : Nat
  resolution : ℚ
  checkConstraints : ConstraintInput P → Bool × ℚ × String
  checkConstraintPath : ConstraintInput P → ℚ → Bool × String

/-- The `planner` struct (solver, logger and clock omitted: the solver is
passed to `getSolutions` as the list of candidates it emits, logging has no
observable effect).  `optsNil` models whether the Go `planOpts` pointer is
nil, which `smoothPath` guards against. -/
structure Planner (P : Type) where
  frame : FrameM P
  planOpts : PlannerOptions P
  optsNil : Bool

/-- `planner.checkInputs`: transform the configuration (failure means
invalid), then ask the constraint capability about the degenerate
self-pair, surfacing only the boolean verdict. -/
def checkInputs (mp : Planner P) (inputs : Config) : Bool :=
  match mp.frame.transform inputs with
  | none => false
  | some position =>
    (mp.planOpts.checkConstraints
      ⟨some position, some position, inputs, inputs, mp.frame⟩).1

/-- `planner.checkPath`: delegate to `CheckConstraintPath` at the
configured resolution; the pose fields of the input are left unset. -/
def checkPath (mp : Planner P) (seedInputs target : Config) : Bool :=
  (mp.planOpts.checkConstraintPath
    ⟨none, none, seedInputs, target, mp.frame⟩ mp.planOpts.resolution).1

/-- The errors the embedded planning entry points can surface.
Constructors model, in order: a context-cancellation error (`ctx.Err()`),
a forward-transform failure, `errIKSolve` ("no IK solution found"),
`genIKConstraintErr` (the constraint-failure summary carrying the
per-constraint histogram and the total failure count), and the
precondition errors of `motionPlanInternal`. -/
inductive PlanError where
  | ctxCanceled
  | transformFailed
  | ikSolve
  | ikConstraint (failures : List (String × Nat)) (cnt : Nat)
  | noDestinations
  | frameMissing (name : String)
  | tracebackFailed
  | differentLengths
  | noDoF
  | solverFrameFailed
  | mapToSliceFailed
  | worldStateFailed
  | planManagerFailed
  | waypointFailed
deriving DecidableEq

instance [DecidableEq α] : DecidableEq (Except PlanError α) := fun a b =>
  match a, b with
  | .error e, .error e' => decidable_of_iff (e = e') (by simp)
  | .ok l, .ok l' =>
    if h : l = l' then .isTrue (by rw [h]) else .isFalse (by simp [h])
  | .error _, .ok _ => .isFalse (by simp)
  | .ok _, .error _ => .isFalse (by simp)

/-- `costNode`: a configuration paired with the numeric cost it was
scored with. -/
structure CostNode where
  q : Config
  cost : ℚ
deriving DecidableEq

/-- `newCostNode`. -/
def newCostNode (q : Config) (cost : ℚ) : CostNode := ⟨q, cost⟩

/-- Go map assignment `m[k] = v` on a `map[float64][]frame.Input`
modelled on an association list: replace the binding if the key is
present, append it otherwise. -/
def assocUpdate (k : ℚ) (v : Config) : List (ℚ × Config) → List (ℚ × Config)
  | [] => [(k, v)]
  | (k₀, v₀) :: rest =>
    if k₀ = k then (k, v) :: rest else (k₀, v₀) :: assocUpdate k v rest

/-- Go map indexing `m[k]` on the same representation. -/
def assocLookup (k : ℚ) : List (ℚ × Config) → Option Config
  | [] => none
  | (k₀, v₀) :: rest => if k₀ = k then some v₀ else assocLookup k rest

/-- Go increment `failures[name]++` on a `map[string]int` modelled on an
association list (a missing key counts as zero). -/
def bumpFailure (name : String) : List (String × Nat) → List (String × Nat)
  | [] => [(name, 1)]
  | (n₀, c₀) :: rest =>
    if n₀ = name then (n₀, c₀ + 1) :: rest else (n₀, c₀) :: bumpFailure name rest

/-- `defaultSolutionsToSeed`, substituted when `MaxSolutions` is zero.
Modelled from the spec: the repository constant's numeric value is outside
the provided sources; any positive count has the specified behavior and
`50` is used here. -/
def defaultSolutionsToSeed : Nat := 50

/-- The number of solutions `getSolutions` collects at most:
`MaxSolutions`, or `defaultSolutionsToSeed` when that is zero. -/
def nSolutionsOf (mp : Planner P) : Nat :=
  if mp.planOpts.maxSolutions = 0 then defaultSolutionsToSeed
  else mp.planOpts.maxSolutions

/-- The state the `IK:` loop of `getSolutions` accumulates: the cost-keyed
solution map, the per-constraint failure histogram, and the total
constraint failure count. -/
structure LoopResult where
  sols : List (ℚ × Config)
  failures : List (String × Nat)
  cnt : Nat
deriving DecidableEq

/-- The verdict of the two `CheckConstraints` calls the `IK:` loop makes
on one emitted candidate: `lowScore` when both checks pass and the first
check's score is below a configured positive `MinScore` (the min-score
early exit fires), `accepted` when both checks pass otherwise, `rejected`
(with the failed constraint's name) when either check fails. -/
inductive StepVerdict where
  | lowScore (score : ℚ)
  | accepted (score : ℚ)
  | rejected (failName : String)
deriving DecidableEq

/-- The constraint screening of one candidate in the `IK:` loop: the
first `CheckConstraints` call uses the seed pose/configuration as the
start side; a passing candidate is re-checked as the degenerate
self-pair (both poses the goal pose, both configurations the candidate)
since the first check alone does not validate the end state. -/
def screenStep (mp : Planner P) (seedPos goalPos : P) (seed step : Config) :
    StepVerdict :=
  let c := mp.planOpts.checkConstraints
    ⟨some seedPos, some goalPos, seed, step, mp.frame⟩
  if c.1 then
    let e := mp.planOpts.checkConstraints
      ⟨some goalPos, some goalPos, step, step, mp.frame⟩
    if e.1 then
      if c.2.1 < mp.planOpts.minScore ∧ 0 < mp.planOpts.minScore then
        .lowScore c.2.1
      else .accepted c.2.1
    else .rejected e.2.2
  else .rejected c.2.2

/-- The `IK:` loop of `getSolutions`.  The candidate stream is the list
`steps`, consumed in emission order; `k` counts loop iterations so that
the `ctx.Done()` poll at the top of each iteration can be modelled by the
schedule `ctxDone`.  The three `break IK` sites (min-score early exit,
max-solutions reached, stream exhausted) return the accumulated state;
an observed cancellation returns `ctx.Err()`. -/
def solveLoop (mp : Planner P) (seedPos goalPos : P) (seed : Config)
    (nSolutions : Nat) (ctxDone : Nat → Bool) :
    List Config → Nat → List (ℚ × Config) → List (String × Nat) → Nat →
    Except PlanError LoopResult
  | steps, k, sols, fails, cnt =>
    if ctxDone k then .error .ctxCanceled
    else
      match steps with
      | [] => .ok ⟨sols, fails, cnt⟩
      | step :: rest =>
        match screenStep mp seedPos goalPos seed step with
        | .lowScore score => .ok ⟨[(score, step)], fails, cnt⟩
        | .accepted score =>
          let sols' := assocUpdate score step sols
          if nSolutions ≤ sols'.length then .ok ⟨sols', fails, cnt⟩
          else solveLoop mp seedPos goalPos seed nSolutions ctxDone
            rest (k + 1) sols' fails cnt
        | .rejected failName =>
          solveLoop mp seedPos goalPos seed nSolutions ctxDone
            rest (k + 1) sols (bumpFailure failName fails) (cnt + 1)

/-- `planner.getSolutions`.  `fixOv` is the package function
`fixOvIncrement` (outside the provided sources; consumed here as the
arbitrary goal-adjustment function the spec describes), `ctxDone` the
cancellation schedule of the caller context, and `steps` the candidate
stream the IK solver task emits. -/
def getSolutions (fixOv : P → P → P) (mp : Planner P) (ctxDone : Nat → Bool)
    (goal : P) (seed : Config) (steps : List Config) :
    Except PlanError (List CostNode) :=
  let nSolutions := nSolutionsOf mp
  match mp.frame.transform seed with
  | none => .error .transformFailed
  | some seedPos =>
    let goalPos := fixOv goal seedPos
    match solveLoop mp seedPos goalPos seed nSolutions ctxDone steps 0 [] [] 0 with
    | .error e => .error e
    | .ok res =>
      if res.sols.length = 0 then
        if res.cnt = 0 then .error .ikSolve
        else .error (.ikConstraint res.failures res.cnt)
      else
        let keys := List.insertionSort (· ≤ ·) (res.sols.map Prod.fst)
        .ok (keys.map fun key => newCostNode ((assocLookup key res.sols).getD []) key)

/-- The trace of candidates the `IK:` loop accepts (both constraint checks
pass), paired with their scores, in processing order; it mirrors
`solveLoop` branch for branch and stops where the loop stops.  Used to
state the last-accepted-wins behavior of the cost-keyed map. -/
def acceptedPairs (mp : Planner P) (seedPos goalPos : P) (seed : Config)
    (nSolutions : Nat) (ctxDone : Nat → Bool) :
    List Config → Nat → List (ℚ × Config) → List (ℚ × Config)
  | steps, k, sols =>
    if ctxDone k then []
    else
      match steps with
      | [] => []
      | step :: rest =>
        match screenStep mp seedPos goalPos seed step with
        | .lowScore score => [(score, step)]
        | .accepted score =>
          let sols' := assocUpdate score step sols
          if nSolutions ≤ sols'.length then [(score, step)]
          else (score, step) ::
            acceptedPairs mp seedPos goalPos seed nSolutions ctxDone
              rest (k + 1) sols'
        | .rejected _ =>
          acceptedPairs mp seedPos goalPos seed nSolutions ctxDone
            rest (k + 1) sols

/-- The accepted-candidate trace of a full `getSolutions` call. -/
def acceptedTrace (fixOv : P → P → P) (mp : Planner P) (ctxDone : Nat → Bool)
    (goal : P) (seed : Config) (steps : List Config) : List (ℚ × Config) :=
  match mp.frame.transform seed with
  | none => []
  | some seedPos =>
    acceptedPairs mp seedPos (fixOv goal seedPos) seed (nSolutionsOf mp)
      ctxDone steps 0 []

/-- The last binding of a key in a list of pairs (later pairs win). -/
def lookupLast (k : ℚ) : List (ℚ × Config) → Option Config
  | [] => none
  | (k₀, v₀) :: rest =>
    match lookupLast k rest with
    | some v => some v
    | none => if k₀ = k then some v₀ else none

/-- A path waypoint (`node`): the canonical `basicNode` holds one
configuration, a `costNode` additionally its cost; `Q` is the `Q()`
accessor of the interface. -/
inductive Node where
  | basic (q : Config)
  | cost (q : Config) (c : ℚ)
deriving DecidableEq

/-- `node.Q()`. -/
def Node.Q : Node → Config
  | .basic q => q
  | .cost q _ => q

/-- `referenceframe.InterpolateInputs`.  Modelled from the spec (the
function lives outside the provided sources): each joint value moves the
fraction `by` of the way from its start value to its target value. -/
def InterpolateInputs (a b : Config) (t : ℚ) : Config :=
  List.zipWith (fun x y => x + (y - x) * t) a b

/-- The fractional positions `smoothPath` may pick along an edge. -/
def waypoints : List ℚ := [1/4, 1/2, 3/4]

/-- One iteration of the `smoothPath` loop, fed the four random draws it
makes (`Intn(len(path)-2)`, `Intn((len(path)-2)-firstEdge)`, and two
`Intn(3)` waypoint picks): pick the two edges, interpolate a waypoint on
each, and splice if the straight segment between them passes `checkPath`. -/
def smoothStep (mp : Planner P) (r₀ r₁ r₂ r₃ : Nat) (path : List Node) :
    List Node :=
  let firstEdge := r₀ % (path.length - 2)
  let secondEdge := firstEdge + 1 + r₁ % ((path.length - 2) - firstEdge)
  let wayPoint1 := InterpolateInputs ((path.getD firstEdge (.basic [])).Q)
    ((path.getD (firstEdge + 1) (.basic [])).Q) (waypoints.getD (r₂ % 3) 0)
  let wayPoint2 := InterpolateInputs ((path.getD secondEdge (.basic [])).Q)
    ((path.getD (secondEdge + 1) (.basic [])).Q) (waypoints.getD (r₃ % 3) 0)
  if checkPath mp wayPoint1 wayPoint2 then
    path.take (firstEdge + 1) ++ [.basic wayPoint1, .basic wayPoint2] ++
      path.drop (secondEdge + 1)
  else path

/-- The iteration loop of `smoothPath`: `fuel` iterations remain, `k`
iterations have run; each iteration first polls `ctx.Done()` (the
schedule `done`), returning the path so far if the context is done, and
otherwise consumes the next four random draws. -/
def smoothLoop (mp : Planner P) (rng : Nat → Nat) (done : Nat → Bool) :
    Nat → Nat → List Node → List Node
  | 0, _, path => path
  | fuel + 1, k, path =>
    if done k then path
    else smoothLoop mp rng done fuel (k + 1)
      (smoothStep mp (rng (4 * k)) (rng (4 * k + 1)) (rng (4 * k + 2))
        (rng (4 * k + 3)) path)

/-- `planner.smoothPath`: a nil options bundle or a path of at most two
nodes is returned unchanged; otherwise run `SmoothIter` shortcutting
iterations. -/
def smoothPath (mp : Planner P) (rng : Nat → Nat) (done : Nat → Bool)
    (path : List Node) : List Node :=
  if mp.optsNil then path
  else if path.length ≤ 2 then path
  else smoothLoop mp rng done mp.planOpts.smoothIter 0 path

/-- The solver frame as consumed by `motionPlanInternal`: only the length
of `DoF()` is inspected there. -/
structure SolverFrameM where
  dof : Nat
deriving DecidableEq

/-- A `PoseInFrame` goal: a pose tagged with its parent frame's name. -/
structure PoseInFrameM (P : Type) where
  parent : String
  pose : P
deriving DecidableEq

/-- A named-configuration map (`map[string][]frame.Input`). -/
abbrev SeedMap : Type := List (String × Config)

/-- The collaborators `motionPlanInternal` calls, all outside the planner
core: frame-system lookup and traceback, `newSolverFrame`, the solver
frame's `mapToSlice`/`Transform`/`sliceToMap`, world-state conversion,
`newPlanManager` and `PlanSingleWaypoint` (the last constructs and drives
the IK solver). -/
structure MPEnv (P O : Type) where
  frameFound : Bool
  traceback : Except PlanError Unit
  emptyOpt : O
  newSolverFrame : String → SeedMap → Except PlanError SolverFrameM
  mapToSlice : SolverFrameM → SeedMap → Except PlanError Config
  sfTransform : SolverFrameM → Config → Except PlanError P
  worldStateToProto : Except PlanError Unit
  newPlanManager : SolverFrameM → Nat → Except PlanError Unit
  planSingleWaypoint : Nat → SeedMap → P → O → Except PlanError (List Config)
  sliceToMap : SolverFrameM → Config → SeedMap

/-- The motion-config resolution of `motionPlanInternal`: no configs means
a default empty config per goal, one config is used for all goals, a
per-goal list is used as is, anything else is an error. -/
def resolveConfigs (goalsLen : Nat) (motionConfigs : List O) (emptyOpt : O) :
    Except PlanError (List O) :=
  if motionConfigs.length ≠ goalsLen then
    match motionConfigs with
    | [] => .ok (List.replicate goalsLen emptyOpt)
    | [c] => .ok (List.replicate goalsLen c)
    | _ => .error .differentLengths
  else .ok motionConfigs

/-- The per-goal loop of `motionPlanInternal`: build a solver frame for
the goal, reject it if it has zero degrees of freedom, derive the flat
seed and its start pose, convert the world state (when one was passed),
build the plan manager, solve the waypoint, then thread the last result
step forward as the next goal's seed map. -/
def planGoals (env : MPEnv P O) (ws : Bool) :
    List (PoseInFrameM P) → List O → Nat → SeedMap → List SeedMap →
    Except PlanError (List SeedMap)
  | [], _, _, _, steps => .ok steps
  | goal :: rest, opts, i, seedMap, steps =>
    match env.newSolverFrame goal.parent seedMap with
    | .error e => .error e
    | .ok sf =>
      if sf.dof = 0 then .error .noDoF
      else
        match env.mapToSlice sf seedMap with
        | .error e => .error e
        | .ok seed =>
          match env.sfTransform sf seed with
          | .error e => .error e
          | .ok _ =>
            match (if ws then env.worldStateToProto else .ok ()) with
            | .error e => .error e
            | .ok _ =>
              match env.newPlanManager sf i with
              | .error e => .error e
              | .ok _ =>
                match env.planSingleWaypoint i seedMap goal.pose
                    (opts.headD env.emptyOpt) with
                | .error e => .error e
                | .ok resultSlices =>
                  let stepMaps := resultSlices.map (env.sliceToMap sf)
                  planGoals env ws rest (opts.drop 1) (i + 1)
                    (stepMaps.getLast?.getD seedMap) (steps ++ stepMaps)

/-- `motionPlanInternal`: reject an empty goal list, verify the solve
frame is in the frame system and trace it back to the root, resolve the
motion configs against the goal count, then solve the goals in order. -/
def motionPlanInternal (env : MPEnv P O) (goals : List (PoseInFrameM P))
    (fname : String) (seedMap : SeedMap) (ws : Bool) (motionConfigs : List O) :
    Except PlanError (List SeedMap) :=
  if goals.length = 0 then .error .noDestinations
  else if env.frameFound = false then .error (.frameMissing fname)
  else
    match env.traceback with
    | .error e => .error e
    | .ok _ =>
      match resolveConfigs goals.length motionConfigs env.emptyOpt with
      | .error e => .error e
      | .ok opts => planGoals env ws goals opts 0 seedMap []

end Motionplan

namespace Motionplan

/-! Concrete instances used by witnesses and counterexamples. -/

/-- A frame over rational poses whose transform projects the head of the
configuration. -/
def wFrame : FrameM ℚ :=
  ⟨fun c => some (c.headD 0)⟩

/-- Concrete planner witnessing `checkInputs_spec`: the constraint accepts
exactly the configurations whose head is nonnegative. -/
def wPlanner : Planner ℚ where
  frame := wFrame
  planOpts :=
    { maxSolutions := 2
      minScore := 0
      smoothIter := 1
      resolution := 1
      checkConstraints := fun ci =>
        (decide (0 ≤ ci.endInput.headD 0), ci.endInput.headD 0, "w")
      checkConstraintPath := fun _ _ => (true, "w") }
  optsNil := false

/-- Concrete planner with a constraint that accepts everything and scores
a candidate by its head entry. -/
def tPlanner : Planner ℚ where
  frame := wFrame
  planOpts :=
    { maxSolutions := 10
      minScore := 0
      smoothIter := 1
      resolution := 1
      checkConstraints := fun ci => (true, ci.endInput.headD 0, "")
      checkConstraintPath := fun _ _ => (true, "") }
  optsNil := false

/-- `tPlanner` with a positive minimum score of `3`. -/
def msPlanner : Planner ℚ :=
  { tPlanner with planOpts := { tPlanner.planOpts with minScore := 3 } }

/-- `tPlanner` with a maximum solution count of `2`. -/
def maxPlanner : Planner ℚ :=
  { tPlanner with planOpts := { tPlanner.planOpts with maxSolutions := 2 } }

/-- Concrete planner whose constraint rejects everything, naming the
failed constraint `"bad"`. -/
def rejPlanner : Planner ℚ :=
  { tPlanner with planOpts :=
    { tPlanner.planOpts with checkConstraints := fun _ => (false, 0, "bad") } }

/-- Concrete planner for the C2 counterexample: every candidate passes the
first constraint check, the candidate `[5]` is scored `1` (below the
minimum score `3`) there but fails the second, self-pair check. -/
def cexPlanner : Planner ℚ where
  frame := wFrame
  planOpts :=
    { maxSolutions := 10
      minScore := 3
      smoothIter := 1
      resolution := 1
      checkConstraints := fun ci =>
        if ci.startInput = ci.endInput ∧ ci.endInput = [5] then
          (false, 0, "selfcheck")
        else (true, if ci.endInput = [5] then 1 else ci.endInput.headD 0, "")
      checkConstraintPath := fun _ _ => (true, "") }
  optsNil := false

/-- Concrete planner for the smoothing claims: every segment passes
`checkPath`, one smoothing iteration. -/
def smPlanner : Planner ℚ where
  frame := wFrame
  planOpts :=
    { maxSolutions := 10
      minScore := 0
      smoothIter := 1
      resolution := 1
      checkConstraints := fun _ => (true, 0, "")
      checkConstraintPath := fun _ _ => (true, "") }
  optsNil := false

/-- A concrete four-node path. -/
def smPath : List Node :=
  [.basic [0], .basic [1], .basic [2], .basic [3]]

/-- Concrete frame-system environment for the `motionPlanInternal`
claims: every collaborator succeeds and the solver frame has one degree
of freedom. -/
def okEnv : MPEnv ℚ Nat where
  frameFound := true
  traceback := .ok ()
  emptyOpt := 0
  newSolverFrame := fun _ _ => .ok ⟨1⟩
  mapToSlice := fun _ _ => .ok []
  sfTransform := fun _ _ => .ok 0
  worldStateToProto := .ok ()
  newPlanManager := fun _ _ => .ok ()
  planSingleWaypoint := fun _ _ _ _ => .ok [[1]]
  sliceToMap := fun _ c => [("f", c)]

/-- `okEnv` with a solver frame of zero degrees of freedom. -/
def zeroDofEnv : MPEnv ℚ Nat :=
  { okEnv with newSolverFrame := fun _ _ => .ok ⟨0⟩ }

/-- A concrete goal. -/
def wGoal : PoseInFrameM ℚ := ⟨"world", 7⟩

end Motionplan

namespace Motionplan

/-! Theorems. -/

theorem assocLookup_update_self (k : ℚ) (v : Config) :
    ∀ l, assocLookup k (assocUpdate k v l) = some v
  | [] => by simp [assocUpdate, assocLookup]
  | (k₀, v₀) :: rest => by
    by_cases h : k₀ = k
    · simp [assocUpdate, assocLookup, h]
    · simp only [assocUpdate, h, if_false]
      simp [assocLookup, h, assocLookup_update_self k v rest]

theorem assocLookup_update_ne (k : ℚ) (v : Config) {q : ℚ} (hq : q ≠ k) :
    ∀ l, assocLookup q (assocUpdate k v l) = assocLookup q l
  | [] => by simp [assocUpdate, assocLookup, hq.symm]
  | (k₀, v₀) :: rest => by
    by_cases h : k₀ = k
    · subst h
      simp [assocUpdate, assocLookup, hq.symm]
    · simp [assocUpdate, assocLookup, h, assocLookup_update_ne k v hq rest]

theorem assocUpdate_length_lower (k : ℚ) (v : Config) :
    ∀ l : List (ℚ × Config), l.length ≤ (assocUpdate k v l).length
  | [] => by simp [assocUpdate]
  | (k₀, v₀) :: rest => by
    by_cases h : k₀ = k <;>
      simp [assocUpdate, h, assocUpdate_length_lower k v rest]

theorem assocUpdate_length_upper (k : ℚ) (v : Config) :
    ∀ l : List (ℚ × Config), (assocUpdate k v l).length ≤ l.length + 1
  | [] => by simp [assocUpdate]
  | (k₀, v₀) :: rest => by
    by_cases h : k₀ = k <;>
      simp [assocUpdate, h]
    exact assocUpdate_length_upper k v rest

theorem mem_keys_assocUpdate {q k : ℚ} {v : Config} :
    ∀ {l}, q ∈ (assocUpdate k v l).map Prod.fst →
      q = k ∨ q ∈ l.map Prod.fst
  | [], h => by simpa [assocUpdate] using h
  | (k₀, v₀) :: rest, h => by
    by_cases hk : k₀ = k
    · subst hk
      simpa [assocUpdate] using h
    · simp only [assocUpdate, hk, if_false, List.map_cons, List.mem_cons] at h
      rcases h with h | h
      · exact Or.inr (by simp [h])
      · rcases mem_keys_assocUpdate h with h' | h'
        · exact Or.inl h'
        · exact Or.inr (by simp [h'])

theorem assocUpdate_keys_nodup {k : ℚ} {v : Config} :
    ∀ {l : List (ℚ × Config)}, (l.map Prod.fst).Nodup →
      ((assocUpdate k v l).map Prod.fst).Nodup
  | [], _ => by simp [assocUpdate]
  | (k₀, v₀) :: rest, h => by
    simp only [List.map_cons, List.nodup_cons] at h
    by_cases hk : k₀ = k
    · subst hk
      simpa [assocUpdate, List.nodup_cons] using h
    · simp only [assocUpdate, hk, if_false, List.map_cons, List.nodup_cons]
      refine ⟨fun hm => ?_, assocUpdate_keys_nodup h.2⟩
      rcases mem_keys_assocUpdate hm with h' | h'
      · exact hk h'
      · exact h.1 h'

theorem assocLookup_of_mem_keys {q : ℚ} :
    ∀ {l : List (ℚ × Config)}, q ∈ l.map Prod.fst →
      ∃ v, assocLookup q l = some v
  | [], h => by simp at h
  | (k₀, v₀) :: rest, h => by
    by_cases hk : k₀ = q
    · exact ⟨v₀, by simp [assocLookup, hk]⟩
    · simp only [List.map_cons, List.mem_cons] at h
      rcases h with h | h
      · exact absurd h.symm hk
      · obtain ⟨v, hv⟩ := assocLookup_of_mem_keys h
        exact ⟨v, by simp [assocLookup, hk, hv]⟩

theorem bumpFailure_sum (name : String) :
    ∀ l : List (String × Nat),
      ((bumpFailure name l).map Prod.snd).sum = (l.map Prod.snd).sum + 1
  | [] => by simp [bumpFailure]
  | (n₀, c₀) :: rest => by
    by_cases h : n₀ = name
    · simp [bumpFailure, h]
      ring
    · simp [bumpFailure, h, bumpFailure_sum name rest]
      ring

theorem bumpFailure_pos {name : String} :
    ∀ {l : List (String × Nat)}, (∀ p ∈ l, 0 < p.2) →
      ∀ p ∈ bumpFailure name l, 0 < p.2 := by
  intro l
  induction l with
  | nil =>
    intro _ p hp
    simp only [bumpFailure, List.mem_singleton] at hp
    subst hp
    simp
  | cons hd rest ih =>
    obtain ⟨n₀, c₀⟩ := hd
    intro h p hp
    by_cases hn : n₀ = name
    · simp only [bumpFailure, hn, if_true, List.mem_cons] at hp
      rcases hp with rfl | hp
      · simp
      · exact h p (List.mem_cons_of_mem _ hp)
    · simp only [bumpFailure, hn, if_false, List.mem_cons] at hp
      rcases hp with rfl | hp
      · exact h (n₀, c₀) (List.mem_cons_self _ _)
      · exact ih (fun q hq => h q (List.mem_cons_of_mem _ hq)) p hp

/-- The invariants the `IK:` loop maintains: distinct cost keys in the
solution map, the solution count bounded by the target count, and the
failure histogram summing to the failure counter with positive entries. -/
theorem solveLoop_ok_inv (mp : Planner P) (seedPos goalPos : P) (seed : Config)
    (n : Nat) (ctxDone : Nat → Bool) :
    ∀ (steps : List Config) (k : Nat) (sols : List (ℚ × Config))
      (fails : List (String × Nat)) (cnt : Nat) (res : LoopResult),
      solveLoop mp seedPos goalPos seed n ctxDone steps k sols fails cnt =
        .ok res →
      ((sols.map Prod.fst).Nodup → (res.sols.map Prod.fst).Nodup) ∧
      (sols.length < n → res.sols.length ≤ n) ∧
      ((fails.map Prod.snd).sum = cnt →
        (res.failures.map Prod.snd).sum = res.cnt) ∧
      ((∀ p ∈ fails, 0 < p.2) → ∀ p ∈ res.failures, 0 < p.2) := by
  intro steps
  induction steps with
  | nil =>
    intro k sols fails cnt res h
    rw [solveLoop] at h
    by_cases hck : ctxDone k = true
    · simp [hck] at h
    · simp only [Bool.not_eq_true] at hck
      simp only [hck, Bool.false_eq_true, if_false] at h
      injection h with h
      subst h
      exact ⟨fun hn => hn, fun hl => le_of_lt hl, fun hs => hs, fun hp => hp⟩
  | cons step rest ih =>
    intro k sols fails cnt res h
    rw [solveLoop] at h
    by_cases hck : ctxDone k = true
    · simp [hck] at h
    · simp only [Bool.not_eq_true] at hck
      simp only [hck, Bool.false_eq_true, if_false] at h
      cases hsv : screenStep mp seedPos goalPos seed step with
      | lowScore score =>
        rw [hsv] at h
        dsimp only at h
        injection h with h
        subst h
        refine ⟨fun _ => by simp, fun hl => ?_, fun hs => hs, fun hp => hp⟩
        simp only [List.length_singleton]
        omega
      | accepted score =>
        rw [hsv] at h
        dsimp only at h
        by_cases hfull : n ≤ (assocUpdate score step sols).length
        · rw [if_pos hfull] at h
          injection h with h
          subst h
          refine ⟨fun hn => assocUpdate_keys_nodup hn, fun hl => ?_,
            fun hs => hs, fun hp => hp⟩
          have := assocUpdate_length_upper score step sols
          dsimp only
          omega
        · rw [if_neg hfull] at h
          obtain ⟨i1, i2, i3, i4⟩ := ih (k + 1) _ fails cnt res h
          refine ⟨fun hn => i1 (assocUpdate_keys_nodup hn),
            fun _ => i2 (by omega), i3, i4⟩
      | rejected failName =>
        rw [hsv] at h
        dsimp only at h
        obtain ⟨i1, i2, i3, i4⟩ := ih (k + 1) sols _ _ res h
        exact ⟨i1, i2,
          fun hs => i3 (by rw [bumpFailure_sum, hs]),
          fun hp => i4 (bumpFailure_pos hp)⟩

/-- Every binding in the final solution map is the last accepted candidate
with that cost, unless it was inherited unchanged from the initial map. -/
theorem solveLoop_lookupLast (mp : Planner P) (seedPos goalPos : P)
    (seed : Config) (n : Nat) (ctxDone : Nat → Bool) :
    ∀ (steps : List Config) (k : Nat) (sols : List (ℚ × Config))
      (fails : List (String × Nat)) (cnt : Nat) (res : LoopResult)
      (q : ℚ) (v : Config),
      solveLoop mp seedPos goalPos seed n ctxDone steps k sols fails cnt =
        .ok res →
      assocLookup q res.sols = some v →
      lookupLast q (acceptedPairs mp seedPos goalPos seed n ctxDone
        steps k sols) = some v ∨
      (assocLookup q sols = some v ∧
        lookupLast q (acceptedPairs mp seedPos goalPos seed n ctxDone
          steps k sols) = none) := by
  intro steps
  induction steps with
  | nil =>
    intro k sols fails cnt res q v h hq
    rw [solveLoop] at h
    rw [acceptedPairs]
    by_cases hck : ctxDone k = true
    · simp [hck] at h
    · simp only [Bool.not_eq_true] at hck
      simp only [hck, Bool.false_eq_true, if_false] at h ⊢
      injection h with h
      subst h
      exact Or.inr ⟨hq, by simp [lookupLast]⟩
  | cons step rest ih =>
    intro k sols fails cnt res q v h hq
    rw [solveLoop] at h
    rw [acceptedPairs]
    by_cases hck : ctxDone k = true
    · simp [hck] at h
    · simp only [Bool.not_eq_true] at hck
      simp only [hck, Bool.false_eq_true, if_false] at h ⊢
      cases hsv : screenStep mp seedPos goalPos seed step with
      | lowScore score =>
        rw [hsv] at h
        dsimp only at h ⊢
        injection h with h
        subst h
        simp only [assocLookup] at hq
        by_cases hqs : q = score
        · subst hqs
          rw [if_pos rfl] at hq
          left
          simp only [lookupLast, if_pos rfl]
          exact hq
        · rw [if_neg (Ne.symm hqs)] at hq
          simp [assocLookup] at hq
      | accepted score =>
        rw [hsv] at h
        dsimp only at h ⊢
        by_cases hfull : n ≤ (assocUpdate score step sols).length
        · rw [if_pos hfull] at h ⊢
          injection h with h
          subst h
          by_cases hqs : q = score
          · subst hqs
            left
            rw [assocLookup_update_self] at hq
            simp only [lookupLast, if_pos rfl]
            exact hq
          · right
            rw [assocLookup_update_ne _ _ hqs] at hq
            refine ⟨hq, ?_⟩
            simp [lookupLast, Ne.symm hqs]
        · rw [if_neg hfull] at h ⊢
          rcases ih (k + 1) _ fails cnt res q v h hq with hl | ⟨hs, hn⟩
          · left
            simp only [lookupLast, hl]
          · by_cases hqs : q = score
            · subst hqs
              left
              rw [assocLookup_update_self] at hs
              simp only [lookupLast, hn, if_pos rfl]
              exact hs
            · right
              rw [assocLookup_update_ne _ _ hqs] at hs
              refine ⟨hs, ?_⟩
              simp [lookupLast, hn, Ne.symm hqs]
      | rejected failName =>
        rw [hsv] at h
        dsimp only at h ⊢
        exact ih (k + 1) sols _ _ res q v h hq

/-- C1: every successful `getSolutions` result is non-empty and strictly
ascending in cost (so no two entries share a cost value), and each entry
holds the configuration of the last accepted candidate with that cost, so
accepted candidates with numerically identical cost collapse to a single
entry with the last one found winning. -/
theorem getSolutions_ordered {P : Type} (fixOv : P → P → P) (mp : Planner P)
    (ctxDone : Nat → Bool) (goal : P) (seed : Config) (steps : List Config)
    (l : List CostNode)
    (h : getSolutions fixOv mp ctxDone goal seed steps = .ok l) :
    l ≠ [] ∧ List.Pairwise (fun a b : CostNode => a.cost < b.cost) l ∧
    ∀ nd ∈ l,
      lookupLast nd.cost (acceptedTrace fixOv mp ctxDone goal seed steps) =
        some nd.q := by
  cases hT : mp.frame.transform seed with
  | none => simp [getSolutions, hT] at h
  | some seedPos =>
    simp only [getSolutions, hT] at h
    cases hL : solveLoop mp seedPos (fixOv goal seedPos) seed
        (nSolutionsOf mp) ctxDone steps 0 [] [] 0 with
    | error e => rw [hL] at h; simp at h
    | ok res =>
      rw [hL] at h
      dsimp only at h
      by_cases hz : res.sols.length = 0
      · rw [if_pos hz] at h
        by_cases hc : res.cnt = 0 <;> simp [hc] at h
      · rw [if_neg hz] at h
        simp only [Except.ok.injEq] at h
        subst h
        have hperm := List.perm_insertionSort (· ≤ ·) (res.sols.map Prod.fst)
        have hsorted :=
          List.sorted_insertionSort (· ≤ ·) (res.sols.map Prod.fst)
        have hinv := solveLoop_ok_inv mp seedPos (fixOv goal seedPos) seed
          (nSolutionsOf mp) ctxDone steps 0 [] [] 0 res hL
        have hnd : (res.sols.map Prod.fst).Nodup := hinv.1 (by simp)
        have hkn : (List.insertionSort (· ≤ ·)
            (res.sols.map Prod.fst)).Nodup := hperm.nodup_iff.mpr hnd
        have hklt : (List.insertionSort (· ≤ ·)
            (res.sols.map Prod.fst)).Pairwise (· < ·) :=
          List.Pairwise.imp₂ (fun _ _ hab hne => lt_of_le_of_ne hab hne)
            hsorted hkn
        have hlen : (List.insertionSort (· ≤ ·)
            (res.sols.map Prod.fst)).length = res.sols.length :=
          hperm.length_eq.trans (List.length_map _ _)
        refine ⟨?_, ?_, ?_⟩
        · intro hnil
          rw [List.map_eq_nil_iff] at hnil
          rw [hnil] at hlen
          exact hz hlen.symm
        · exact List.pairwise_map.mpr hklt
        · intro nd hmem
          obtain ⟨key, hkey, rfl⟩ := List.mem_map.mp hmem
          have hmemk : key ∈ res.sols.map Prod.fst := hperm.subset hkey
          obtain ⟨v, hv⟩ := assocLookup_of_mem_keys hmemk
          rcases solveLoop_lookupLast mp seedPos (fixOv goal seedPos) seed
              (nSolutionsOf mp) ctxDone steps 0 [] [] 0 res key v hL hv with
            hl | ⟨hbad, _⟩
          · simp only [acceptedTrace, hT]
            simpa [newCostNode, hv] using hl
          · simp [assocLookup] at hbad

/-- Witness for C1: a planner that accepts everything, two candidates
accepted with scores `2` then `1`, result sorted ascending. -/
theorem getSolutions_ordered_witness :
    ([newCostNode [1] 1, newCostNode [2] 2] : List CostNode) ≠ [] ∧
    List.Pairwise (fun a b : CostNode => a.cost < b.cost)
      [newCostNode [1] 1, newCostNode [2] 2] ∧
    ∀ nd ∈ [newCostNode [1] 1, newCostNode [2] 2],
      lookupLast nd.cost (acceptedTrace (fun g _ => g) tPlanner
        (fun _ => false) 9 [0] [[2], [1]]) = some nd.q :=
  getSolutions_ordered (fun g _ => g) tPlanner (fun _ => false) 9 [0]
    [[2], [1]] [newCostNode [1] 1, newCostNode [2] 2] (by decide)

/-- C3: with a positive configured `MaxSolutions = N`, a successful
`getSolutions` result has at most `N` entries, and the collecting loop
stops at the candidate whose acceptance brings the held distinct-cost
entry count to `N`, ignoring the rest of the stream. -/
theorem getSolutions_maxSolutions {P : Type} (fixOv : P → P → P)
    (mp : Planner P) (ctxDone : Nat → Bool) (goal : P) (seed : Config)
    (hN : 0 < mp.planOpts.maxSolutions) :
    (∀ (steps : List Config) (l : List CostNode),
      getSolutions fixOv mp ctxDone goal seed steps = .ok l →
      l.length ≤ mp.planOpts.maxSolutions) ∧
    (∀ (seedPos goalPos : P) (step : Config) (rest : List Config) (k : Nat)
      (sols : List (ℚ × Config)) (fails : List (String × Nat)) (cnt : Nat)
      (score : ℚ),
      ctxDone k = false →
      screenStep mp seedPos goalPos seed step = .accepted score →
      mp.planOpts.maxSolutions ≤ (assocUpdate score step sols).length →
      solveLoop mp seedPos goalPos seed (nSolutionsOf mp) ctxDone
        (step :: rest) k sols fails cnt =
        .ok ⟨assocUpdate score step sols, fails, cnt⟩) := by
  have hn : nSolutionsOf mp = mp.planOpts.maxSolutions := by
    unfold nSolutionsOf
    rw [if_neg (by omega)]
  constructor
  · intro steps l h
    cases hT : mp.frame.transform seed with
    | none => simp [getSolutions, hT] at h
    | some seedPos =>
      simp only [getSolutions, hT] at h
      cases hL : solveLoop mp seedPos (fixOv goal seedPos) seed
          (nSolutionsOf mp) ctxDone steps 0 [] [] 0 with
      | error e => rw [hL] at h; simp at h
      | ok res =>
        rw [hL] at h
        dsimp only at h
        by_cases hz : res.sols.length = 0
        · rw [if_pos hz] at h
          by_cases hc : res.cnt = 0 <;> simp [hc] at h
        · rw [if_neg hz] at h
          simp only [Except.ok.injEq] at h
          subst h
          have hinv := solveLoop_ok_inv mp seedPos (fixOv goal seedPos) seed
            (nSolutionsOf mp) ctxDone steps 0 [] [] 0 res hL
          have hlen : res.sols.length ≤ nSolutionsOf mp :=
            hinv.2.1 (by simp; omega)
          calc (List.map (fun key =>
                newCostNode ((assocLookup key res.sols).getD []) key)
                (List.insertionSort (· ≤ ·)
                  (res.sols.map Prod.fst))).length
              = res.sols.length := by
                rw [List.length_map,
                  (List.perm_insertionSort _ _).length_eq, List.length_map]
            _ ≤ mp.planOpts.maxSolutions := by omega
  · intro seedPos goalPos step rest k sols fails cnt score hck hsv hfull
    rw [solveLoop]
    simp only [hck, Bool.false_eq_true, if_false, hsv]
    rw [if_pos (hn ▸ hfull)]

/-- Witness for C3 at `maxPlanner` (`MaxSolutions = 2`): a three-candidate
stream yields two entries, and the loop stops at the second acceptance. -/
theorem getSolutions_maxSolutions_witness :
    ([newCostNode [1] 1, newCostNode [3] 3] : List CostNode).length ≤
      maxPlanner.planOpts.maxSolutions ∧
    solveLoop maxPlanner 0 9 [0] (nSolutionsOf maxPlanner) (fun _ => false)
      [[1], [9]] 5 [(3, [3])] [] 0 = .ok ⟨[(3, [3]), (1, [1])], [], 0⟩ :=
  ⟨(getSolutions_maxSolutions (fun g _ => g) maxPlanner (fun _ => false) 9
      [0] (by decide)).1 [[3], [1], [2]]
      [newCostNode [1] 1, newCostNode [3] 3] (by decide),
    (getSolutions_maxSolutions (fun g _ => g) maxPlanner (fun _ => false) 9
      [0] (by decide)).2 0 9 [1] [[9]] 5 [(3, [3])] [] 0 1 rfl (by decide)
      (by decide)⟩

/-- C2 counterexample: `MinScore = 3 > 0`, the candidate `[5]` is emitted
and its constraint check scores it `1 < 3`, yet the result has two
entries, because `[5]` fails the second (self-pair) constraint check, so
the low score never triggers the early exit. -/
theorem getSolutions_minScore_cex :
    0 < cexPlanner.planOpts.minScore ∧
    (cexPlanner.planOpts.checkConstraints
      ⟨some 0, some 9, [0], [5], cexPlanner.frame⟩).2.1 <
        cexPlanner.planOpts.minScore ∧
    ([5] : Config) ∈ ([[4], [6], [5]] : List Config) ∧
    getSolutions (fun g _ => g) cexPlanner (fun _ => false) 9 [0]
      [[4], [6], [5]] = .ok [newCostNode [4] 4, newCostNode [6] 6] ∧
    ([newCostNode [4] 4, newCostNode [6] 6] : List CostNode).length ≠ 1 := by
  refine ⟨by decide, by decide, by decide, by decide, by decide⟩

/-- C2 amended: if `MinScore > 0` and a candidate that passes both
constraint checks has its first-check score below `MinScore`, the loop
discards everything collected so far and returns exactly that candidate
as the single entry, ignoring the rest of the stream; a `getSolutions`
call whose stream starts with such a candidate returns exactly one
`CostNode` (that candidate at that score). -/
theorem getSolutions_minScore_exit {P : Type} (fixOv : P → P → P)
    (mp : Planner P) (ctxDone : Nat → Bool) (seed c : Config) (score : ℚ)
    (hMin : 0 < mp.planOpts.minScore) :
    (∀ (seedPos goalPos : P) (rest : List Config) (k : Nat)
      (sols : List (ℚ × Config)) (fails : List (String × Nat)) (cnt : Nat),
      ctxDone k = false →
      screenStep mp seedPos goalPos seed c = .lowScore score →
      solveLoop mp seedPos goalPos seed (nSolutionsOf mp) ctxDone
        (c :: rest) k sols fails cnt = .ok ⟨[(score, c)], fails, cnt⟩) ∧
    (∀ (goal seedPos : P) (rest : List Config),
      mp.frame.transform seed = some seedPos →
      ctxDone 0 = false →
      screenStep mp seedPos (fixOv goal seedPos) seed c = .lowScore score →
      getSolutions fixOv mp ctxDone goal seed (c :: rest) =
        .ok [newCostNode c score]) := by
  have main : ∀ (seedPos goalPos : P) (rest : List Config) (k : Nat)
      (sols : List (ℚ × Config)) (fails : List (String × Nat)) (cnt : Nat),
      ctxDone k = false →
      screenStep mp seedPos goalPos seed c = .lowScore score →
      solveLoop mp seedPos goalPos seed (nSolutionsOf mp) ctxDone
        (c :: rest) k sols fails cnt = .ok ⟨[(score, c)], fails, cnt⟩ := by
    intro seedPos goalPos rest k sols fails cnt hck hsv
    rw [solveLoop]
    simp only [hck, Bool.false_eq_true, if_false, hsv]
  refine ⟨main, ?_⟩
  intro goal seedPos rest hT hck hsv
  simp only [getSolutions, hT]
  rw [main seedPos (fixOv goal seedPos) rest 0 [] [] 0 hck hsv]
  simp [List.insertionSort, List.orderedInsert, assocLookup]

/-- Witness for C2 amended: `msPlanner` (`MinScore = 3`), first candidate
`[1]` scored `1 < 3`, the trailing `[7]` is never used. -/
theorem getSolutions_minScore_exit_witness :
    getSolutions (fun g _ => g) msPlanner (fun _ => false) 9 [0]
      [[1], [7]] = .ok [newCostNode [1] 1] :=
  (getSolutions_minScore_exit (fun g _ => g) msPlanner (fun _ => false)
    [0] [1] 1 (by decide)).2 9 0 [[7]] (by decide) rfl (by decide)

/-- C6: when the `IK:` loop ends with an empty solution map, the call
fails with exactly one of two errors: the generic "no IK solution found"
error when no constraint-check attempt was rejected (zero attempts), and
otherwise the constraint-failure summary carrying the per-constraint
rejection histogram and the total failure count; the histogram's entries
are positive and sum to that total, and it is empty in the zero-attempt
case. -/
theorem getSolutions_failure_report {P : Type} (fixOv : P → P → P)
    (mp : Planner P) (ctxDone : Nat → Bool) (goal : P) (seed : Config)
    (steps : List Config) (seedPos : P) (res : LoopResult)
    (hT : mp.frame.transform seed = some seedPos)
    (hL : solveLoop mp seedPos (fixOv goal seedPos) seed (nSolutionsOf mp)
      ctxDone steps 0 [] [] 0 = .ok res)
    (hz : res.sols = []) :
    (res.cnt = 0 →
      getSolutions fixOv mp ctxDone goal seed steps = .error .ikSolve) ∧
    (res.cnt ≠ 0 →
      getSolutions fixOv mp ctxDone goal seed steps =
        .error (.ikConstraint res.failures res.cnt)) ∧
    (res.failures.map Prod.snd).sum = res.cnt ∧
    (∀ p ∈ res.failures, 0 < p.2) ∧
    (res.cnt = 0 → res.failures = []) := by
  have hinv := solveLoop_ok_inv mp seedPos (fixOv goal seedPos) seed
    (nSolutionsOf mp) ctxDone steps 0 [] [] 0 res hL
  have hsum : (res.failures.map Prod.snd).sum = res.cnt := hinv.2.2.1 (by simp)
  have hpos : ∀ p ∈ res.failures, 0 < p.2 := hinv.2.2.2 (by simp)
  have hemp : res.cnt = 0 → res.failures = [] := by
    intro hc
    cases hf : res.failures with
    | nil => rfl
    | cons p rest =>
      exfalso
      have hp : 0 < p.2 := hpos p (by rw [hf]; exact List.mem_cons_self _ _)
      rw [hf, hc] at hsum
      simp only [List.map_cons, List.sum_cons] at hsum
      omega
  have heval : ∀ x : Except PlanError (List CostNode),
      (match solveLoop mp seedPos (fixOv goal seedPos) seed (nSolutionsOf mp)
          ctxDone steps 0 [] [] 0 with
        | .error e => .error e
        | .ok r =>
          if r.sols.length = 0 then
            if r.cnt = 0 then Except.error PlanError.ikSolve
            else .error (.ikConstraint r.failures r.cnt)
          else
            .ok ((List.insertionSort (· ≤ ·) (r.sols.map Prod.fst)).map
              fun key => newCostNode ((assocLookup key r.sols).getD []) key))
        = x →
      getSolutions fixOv mp ctxDone goal seed steps = x := by
    intro x hx
    simpa only [getSolutions, hT] using hx
  refine ⟨fun hc => ?_, fun hc => ?_, hsum, hpos, hemp⟩
  · exact heval _ (by rw [hL]; simp [hz, hc])
  · exact heval _ (by rw [hL]; simp [hz, hc])

/-- Witness for C6 at the all-rejecting planner: both candidates are
rejected by the constraint named `"bad"`, so the call fails with the
histogram `[("bad", 2)]` and total `2`. -/
theorem getSolutions_failure_report_witness :
    getSolutions (fun g _ => g) rejPlanner (fun _ => false) 9 [0]
      [[1], [2]] = .error (.ikConstraint [("bad", 2)] 2) ∧
    (([(("bad" : String), 2)] : List (String × Nat)).map Prod.snd).sum = 2 :=
  ⟨(getSolutions_failure_report (fun g _ => g) rejPlanner (fun _ => false)
      9 [0] [[1], [2]] 0 ⟨[], [("bad", 2)], 2⟩ (by decide) (by decide)
      rfl).2.1 (by decide),
    (getSolutions_failure_report (fun g _ => g) rejPlanner (fun _ => false)
      9 [0] [[1], [2]] 0 ⟨[], [("bad", 2)], 2⟩ (by decide) (by decide)
      rfl).2.2.1⟩

theorem head?_take_pos {α : Type} (l : List α) (k : Nat) (hk : 0 < k) :
    (l.take k).head? = l.head? := by
  cases l with
  | nil => simp
  | cons a t =>
    cases k with
    | zero => omega
    | succ k => simp

theorem getLast?_drop_lt {α : Type} :
    ∀ (l : List α) (k : Nat), k < l.length →
      (l.drop k).getLast? = l.getLast?
  | [], k, hk => by simp at hk
  | a :: t, 0, _ => rfl
  | a :: t, k + 1, hk => by
    simp only [List.length_cons, Nat.add_lt_add_iff_right] at hk
    rw [List.drop_succ_cons, getLast?_drop_lt t k hk]
    cases t with
    | nil => simp at hk
    | cons b t' => rw [List.getLast?_cons_cons]

/-- One smoothing iteration preserves the path's first and last node and
keeps the path at least three nodes long. -/
theorem smoothStep_endpoints {P : Type} (mp : Planner P) (r₀ r₁ r₂ r₃ : Nat)
    (path : List Node) (h3 : 3 ≤ path.length) :
    (smoothStep mp r₀ r₁ r₂ r₃ path).head? = path.head? ∧
    (smoothStep mp r₀ r₁ r₂ r₃ path).getLast? = path.getLast? ∧
    3 ≤ (smoothStep mp r₀ r₁ r₂ r₃ path).length := by
  have hf : r₀ % (path.length - 2) < path.length - 2 :=
    Nat.mod_lt _ (by omega)
  have hs : r₁ % ((path.length - 2) - r₀ % (path.length - 2)) <
      (path.length - 2) - r₀ % (path.length - 2) :=
    Nat.mod_lt _ (by omega)
  unfold smoothStep
  dsimp only
  split
  · have hx : ∃ x, path.getLast? = some x := by
      rw [← Option.isSome_iff_exists, List.getLast?_isSome]
      intro hnil
      rw [hnil] at h3
      simp at h3
    obtain ⟨x, hx⟩ := hx
    refine ⟨?_, ?_, ?_⟩
    · rw [List.head?_append, List.head?_append,
        head?_take_pos _ _ (Nat.succ_pos _)]
      cases path with
      | nil => simp at h3
      | cons a t => simp
    · rw [List.getLast?_append, List.getLast?_append,
        getLast?_drop_lt _ _ (by omega), hx]
      simp
    · simp only [List.length_append, List.length_take, List.length_drop,
        List.length_cons, List.length_nil]
      omega
  · exact ⟨rfl, rfl, h3⟩

/-- The smoothing loop preserves the path's first and last node. -/
theorem smoothLoop_endpoints {P : Type} (mp : Planner P) (rng : Nat → Nat)
    (done : Nat → Bool) :
    ∀ (fuel k : Nat) (path : List Node), 3 ≤ path.length →
      (smoothLoop mp rng done fuel k path).head? = path.head? ∧
      (smoothLoop mp rng done fuel k path).getLast? = path.getLast? ∧
      3 ≤ (smoothLoop mp rng done fuel k path).length := by
  intro fuel
  induction fuel with
  | zero => intro k path h3; exact ⟨rfl, rfl, h3⟩
  | succ fuel ih =>
    intro k path h3
    rw [smoothLoop]
    by_cases hd : done k = true
    · rw [if_pos hd]
      exact ⟨rfl, rfl, h3⟩
    · rw [if_neg hd]
      obtain ⟨s1, s2, s3⟩ := smoothStep_endpoints mp (rng (4 * k))
        (rng (4 * k + 1)) (rng (4 * k + 2)) (rng (4 * k + 3)) path h3
      obtain ⟨l1, l2, l3⟩ := ih (k + 1) _ s3
      exact ⟨l1.trans s1, l2.trans s2, l3⟩

/-- C10: `smoothPath` preserves the path's endpoints: the first and last
node of the returned path are those of the input path, because every
accepted splice keeps a non-empty prefix containing node 0 and a suffix
containing the final node. -/
theorem smoothPath_endpoints {P : Type} (mp : Planner P) (rng : Nat → Nat)
    (done : Nat → Bool) (path : List Node) :
    (smoothPath mp rng done path).head? = path.head? ∧
    (smoothPath mp rng done path).getLast? = path.getLast? := by
  unfold smoothPath
  by_cases ho : mp.optsNil = true
  · rw [if_pos ho]
    exact ⟨rfl, rfl⟩
  · rw [if_neg ho]
    by_cases hl : path.length ≤ 2
    · rw [if_pos hl]
      exact ⟨rfl, rfl⟩
    · rw [if_neg hl]
      obtain ⟨h1, h2, _⟩ := smoothLoop_endpoints mp rng done
        mp.planOpts.smoothIter 0 path (by omega)
      exact ⟨h1, h2⟩

/-- C4 counterexample: on the four-node path, with the shortcut between
edges `0` and `1` accepted, the spliced path keeps the suffix starting at
node `j + 1 = 2` (so node `2` survives); it is not the path predicted by
keeping only the suffix from node `j + 2 = 3` onward. -/
theorem smoothPath_splice_cex :
    smoothPath smPlanner (fun _ => 0) (fun _ => false) smPath =
      smPath.take 1 ++
        [.basic (InterpolateInputs [0] [1] (waypoints.getD 0 0)),
          .basic (InterpolateInputs [1] [2] (waypoints.getD 0 0))] ++
        smPath.drop 2 ∧
    smPath.take 1 ++
        [.basic (InterpolateInputs [0] [1] (waypoints.getD 0 0)),
          .basic (InterpolateInputs [1] [2] (waypoints.getD 0 0))] ++
        smPath.drop 2 ≠
      smPath.take 1 ++
        [.basic (InterpolateInputs [0] [1] (waypoints.getD 0 0)),
          .basic (InterpolateInputs [1] [2] (waypoints.getD 0 0))] ++
        smPath.drop 3 := by
  constructor
  · rfl
  · intro h
    have hlen := congrArg List.length h
    simp [smPath] at hlen

/-- C4 amended: when `smoothPath` (one iteration, live context, non-nil
options) accepts the shortcut between first edge `f` and second edge `s`,
the new path is exactly the old path's prefix up to and including node
`f`, then the two interpolated waypoints, then the old path's suffix
starting at node `s + 1` (from node `s + 1` onward). -/
theorem smoothPath_splice {P : Type} (mp : Planner P) (rng : Nat → Nat)
    (done : Nat → Bool) (path : List Node) (f s : Nat) (w1 w2 : Config)
    (ho : mp.optsNil = false) (hi : mp.planOpts.smoothIter = 1)
    (hlen : ¬path.length ≤ 2) (hd : done 0 = false)
    (hf : f = rng 0 % (path.length - 2))
    (hs : s = f + 1 + rng 1 % ((path.length - 2) - f))
    (hw1 : w1 = InterpolateInputs ((path.getD f (.basic [])).Q)
      ((path.getD (f + 1) (.basic [])).Q) (waypoints.getD (rng 2 % 3) 0))
    (hw2 : w2 = InterpolateInputs ((path.getD s (.basic [])).Q)
      ((path.getD (s + 1) (.basic [])).Q) (waypoints.getD (rng 3 % 3) 0))
    (hcp : checkPath mp w1 w2 = true) :
    smoothPath mp rng done path =
      path.take (f + 1) ++ [.basic w1, .basic w2] ++ path.drop (s + 1) := by
  subst hf
  subst hs
  subst hw1
  subst hw2
  unfold smoothPath
  rw [if_neg (by simp [ho]), if_neg hlen, hi]
  rw [smoothLoop]
  rw [if_neg (by simp [hd])]
  rw [smoothLoop]
  simp only [Nat.mul_zero, Nat.zero_add]
  unfold smoothStep
  dsimp only
  rw [if_pos hcp]

/-- Witness for C4 amended at the concrete path with `rng n = n`:
`f = 0`, `s = 2`, suffix kept from node `3`. -/
theorem smoothPath_splice_witness :
    smoothPath smPlanner (fun n => n) (fun _ => false) smPath =
      smPath.take 1 ++
        [.basic (InterpolateInputs [0] [1] (waypoints.getD 2 0)),
          .basic (InterpolateInputs [2] [3] (waypoints.getD 0 0))] ++
        smPath.drop 3 :=
  smoothPath_splice smPlanner (fun n => n) (fun _ => false) smPath 0 2
    (InterpolateInputs [0] [1] (waypoints.getD 2 0))
    (InterpolateInputs [2] [3] (waypoints.getD 0 0))
    rfl rfl (by decide) rfl rfl rfl rfl rfl rfl

/-- C7: when the solver frame constructed for the first goal exposes zero
degrees of freedom, the planning call fails with the "no degrees of
freedom" error, whatever the downstream collaborators (seed flattening,
start-pose transform, world-state conversion, plan-manager construction
and the waypoint solve that builds and drives the IK solver) would do —
so no IK solver is constructed or invoked. -/
theorem motionPlanInternal_zeroDoF {P O : Type} (env : MPEnv P O)
    (g : PoseInFrameM P) (rest : List (PoseInFrameM P)) (fname : String)
    (seedMap : SeedMap) (ws : Bool) (motionConfigs : List O)
    (opts : List O) (sf : SolverFrameM)
    (hf : env.frameFound = true) (ht : env.traceback = .ok ())
    (hr : resolveConfigs (g :: rest).length motionConfigs env.emptyOpt =
      .ok opts)
    (hsf : env.newSolverFrame g.parent seedMap = .ok sf)
    (hdof : sf.dof = 0) :
    ∀ (m2 : SolverFrameM → SeedMap → Except PlanError Config)
      (t2 : SolverFrameM → Config → Except PlanError P)
      (w2 : Except PlanError Unit)
      (npm : SolverFrameM → Nat → Except PlanError Unit)
      (psw : Nat → SeedMap → P → O → Except PlanError (List Config)),
      motionPlanInternal
        { env with
            mapToSlice := m2
            sfTransform := t2
            worldStateToProto := w2
            newPlanManager := npm
            planSingleWaypoint := psw }
        (g :: rest) fname seedMap ws motionConfigs = .error .noDoF := by
  intro m2 t2 w2 npm psw
  unfold motionPlanInternal
  dsimp only
  rw [if_neg (by simp), if_neg (by simp [hf]), ht]
  dsimp only
  rw [hr]
  dsimp only
  rw [planGoals]
  dsimp only
  rw [hsf]
  dsimp only
  rw [if_pos hdof]

/-- Witness for C7 at the concrete zero-DoF environment and a single
goal. -/
theorem motionPlanInternal_zeroDoF_witness :
    motionPlanInternal
      { zeroDofEnv with
          mapToSlice := fun _ _ => .ok []
          sfTransform := fun _ _ => .ok (0 : ℚ)
          worldStateToProto := .ok ()
          newPlanManager := fun _ _ => .ok ()
          planSingleWaypoint := fun _ _ _ _ => .ok [[1]] }
      [wGoal] "arm" [("arm", [0])] false [] = .error .noDoF :=
  motionPlanInternal_zeroDoF zeroDofEnv wGoal [] "arm" [("arm", [0])] false
    [] (List.replicate 1 zeroDofEnv.emptyOpt) ⟨0⟩ rfl rfl (by decide) rfl
    rfl (fun _ _ => .ok []) (fun _ _ => .ok (0 : ℚ)) (.ok ())
    (fun _ _ => .ok ()) (fun _ _ _ _ => .ok [[1]])

/-- The motion-config resolution treats one supplied config exactly as
that config replicated once per goal. -/
theorem resolveConfigs_singleton {O : Type} (n : Nat) (c emptyOpt : O) :
    resolveConfigs n [c] emptyOpt =
      resolveConfigs n (List.replicate n c) emptyOpt := by
  unfold resolveConfigs
  by_cases hn : n = 1
  · subst hn
    simp
  · rw [if_pos (by simp; omega), if_neg (by simp)]

/-- C8 counterexample: with zero goals (and, separately, with a missing
solve frame) and a config count that is neither zero, one, nor the goal
count, the call fails with a different error than "goals and motion
configs had different lengths". -/
theorem motionPlanInternal_configs_cex :
    motionPlanInternal okEnv ([] : List (PoseInFrameM ℚ)) "arm" [] false
      [1, 2] = .error .noDestinations ∧
    motionPlanInternal { okEnv with frameFound := false } [wGoal] "arm" []
      false [1, 2] = .error (.frameMissing "arm") ∧
    (PlanError.noDestinations ≠ .differentLengths) ∧
    (PlanError.frameMissing "arm" ≠ .differentLengths) := by
  refine ⟨by decide, by decide, by decide, by decide⟩

/-- C8 amended: a single supplied motion config behaves exactly as that
config replicated for every goal (whatever the goal count); and, given at
least one goal and a successful solve-frame lookup and traceback, a
config count that is neither zero, nor one, nor the goal count fails with
the "goals and motion configs had different lengths" error. -/
theorem motionPlanInternal_configs {P O : Type} (env : MPEnv P O)
    (goals : List (PoseInFrameM P)) (fname : String) (seedMap : SeedMap)
    (ws : Bool) :
    (∀ c : O, motionPlanInternal env goals fname seedMap ws [c] =
      motionPlanInternal env goals fname seedMap ws
        (List.replicate goals.length c)) ∧
    (∀ motionConfigs : List O, goals ≠ [] → env.frameFound = true →
      env.traceback = .ok () → motionConfigs.length ≠ 0 →
      motionConfigs.length ≠ 1 → motionConfigs.length ≠ goals.length →
      motionPlanInternal env goals fname seedMap ws motionConfigs =
        .error .differentLengths) := by
  constructor
  · intro c
    unfold motionPlanInternal
    rw [resolveConfigs_singleton]
  · intro motionConfigs hg hf ht h0 h1 hgl
    unfold motionPlanInternal
    rw [if_neg (by simp [hg]), if_neg (by simp [hf]), ht]
    have : resolveConfigs goals.length motionConfigs env.emptyOpt =
        .error .differentLengths := by
      unfold resolveConfigs
      rw [if_pos hgl]
      cases motionConfigs with
      | nil => simp at h0
      | cons c cs =>
        cases cs with
        | nil => simp at h1
        | cons c' cs' => rfl
    rw [this]

/-- Witness for C8 amended at the concrete environment: one config shared
across one goal, and a three-config list against one goal failing. -/
theorem motionPlanInternal_configs_witness :
    (motionPlanInternal okEnv [wGoal] "arm" [] false [7] =
      motionPlanInternal okEnv [wGoal] "arm" [] false
        (List.replicate 1 7)) ∧
    motionPlanInternal okEnv [wGoal] "arm" [] false [1, 2, 3] =
      .error .differentLengths :=
  ⟨(motionPlanInternal_configs okEnv [wGoal] "arm" [] false).1 7,
    (motionPlanInternal_configs okEnv [wGoal] "arm" [] false).2 [1, 2, 3]
      (by decide) rfl rfl (by decide) (by decide) (by decide)⟩

/-- C9: `checkInputs` returns `false` exactly when the forward transform
fails, and otherwise returns precisely the pass/fail verdict of the
constraint capability on the degenerate `ConstraintInput` whose start and
end pose and start and end configuration all equal this configuration and
its transformed pose. -/
theorem checkInputs_spec {P : Type} (mp : Planner P) (inputs : Config) :
    (mp.frame.transform inputs = none → checkInputs mp inputs = false) ∧
    (∀ position : P, mp.frame.transform inputs = some position →
      checkInputs mp inputs =
        (mp.planOpts.checkConstraints
          ⟨some position, some position, inputs, inputs, mp.frame⟩).1) := by
  constructor
  · intro h
    unfold checkInputs
    rw [h]
  · intro position h
    unfold checkInputs
    rw [h]

/-- Witness for C9 at the concrete planner `wPlanner` and input `[1]`. -/
theorem checkInputs_spec_witness :
    checkInputs wPlanner [1] =
      (wPlanner.planOpts.checkConstraints
        ⟨some 1, some 1, [1], [1], wPlanner.frame⟩).1 :=
  (checkInputs_spec wPlanner [1]).2 1 (by decide)

end Motionplan
